import Mathlib

/-!
Shallow embedding of `src/call_tree.py` (class `CallTreeCommand`): a gdb
command that reconstructs a call tree by single-stepping the target and
observing, at each pause, the active frame and its caller chain.

Modelling choices:
* A `Frame` is an identity (`fid`) plus a display name, mirroring gdb frame
  objects, which compare by frame identity; the caller chain at a pause is a
  `Stack`, a list of frames innermost first, so `older()` is the list tail
  and `gdb.newest_frame()` is the head (an empty list models the case where
  no frame is retrievable).
* The `treelib.Tree` is modelled as the list of created nodes in creation
  order; `create_node` appends, `tree.parent(nid)` is `parentOf`.
* `gdb.execute "step"` and `gdb.execute "finish"` are modelled as directives
  collected in the order the handler issues them; `gdb.events.stop`
  connection state is the boolean `connected`; `print_tree` is modelled by
  the `rendered` field of the handler result.
* Python `int()` is modelled by `pyInt?` for optionally negative decimal
  literals, the shapes exercised here; a failed conversion models the
  `ValueError` branch.
-/

/-- A stack frame: gdb frames compare by identity, modelled by `fid`;
`fname` models `frame.name()`. -/
structure Frame where
  fid : Nat
  fname : String
deriving DecidableEq, Repr

/-- The caller chain observed at a pause, innermost frame first; `older()`
is the tail. The empty list models `gdb.newest_frame()` returning nothing. -/
abbrev Stack := List Frame

/-- One `treelib` node: display tag, unique identifier, parent identifier
(`none` for the root). -/
structure TreeNode where
  tag : String
  identifier : String
  parent : Option String
deriving DecidableEq, Repr

/-- The `treelib.Tree`, as the list of nodes in creation order. -/
abbrev CallTree := List TreeNode

/-- `tree.create_node(tag, id, parent)`: appends a node. -/
def createNode (t : CallTree) (tag id : String) (parent : Option String) : CallTree :=
  t ++ [{ tag := tag, identifier := id, parent := parent }]

/-- Look a node up by identifier (first match, identifiers are unique in
every session). -/
def findNode (t : CallTree) (id : String) : Option TreeNode :=
  t.find? (fun n => n.identifier == id)

/-- The identifiers present in the tree. -/
def ids (t : CallTree) : List String := t.map (fun n => n.identifier)

/-- `tree.parent(nid)` of `treelib`: the parent node of the node named by
the cursor, or `none` for the root (or when the cursor is unset). -/
def parentOf (t : CallTree) (cur : Option String) : Option TreeNode :=
  cur.bind fun cid =>
    (findNode t cid).bind fun n =>
      n.parent.bind fun pid => findNode t pid

/-- The depth loop of `stop_handler` (lines 68-73):
`while temp_frame and temp_frame != self.initial_frame: depth += 1;
temp_frame = temp_frame.older()`. The reference frame is carried as an
`Option` exactly like the `self.initial_frame` field. -/
def computeDepth : Stack → Option Frame → Nat
  | [], _ => 0
  | f :: rest, ref => if some f = ref then 0 else computeDepth rest ref + 1

/-- The two execution-control commands the handler issues. -/
inductive Directive where
  | step
  | finish
deriving DecidableEq, Repr

/-- The mutable fields of `CallTreeCommand`, plus `connected`, which models
whether `stop_handler` is connected to `gdb.events.stop`. -/
structure TState where
  max_depth : Int
  call_tree : CallTree
  current_depth : Nat
  done : Bool
  initial_frame : Option Frame
  node_counter : Nat
  current_parent : Option String
  connected : Bool
deriving DecidableEq, Repr

/-- The state established by `CallTreeCommand.__init__`. -/
def initState : TState :=
  { max_depth := 2
    call_tree := []
    current_depth := 0
    done := false
    initial_frame := none
    node_counter := 0
    current_parent := none
    connected := false }

/-- The observable outcome of one `stop_handler` invocation: the new state,
the directives issued (in order), and the tree passed to `print_tree` when
it was called this round. -/
structure StepResult where
  state : TState
  directives : List Directive
  rendered : Option CallTree
deriving DecidableEq, Repr

/-- The stall branch of `stop_handler` (lines 80-81): `if current == previous`
the source issues one `step`; it does NOT return, so execution falls through
to the classification below. -/
def stallDirectives (d previous_depth : Nat) : List Directive :=
  if d = previous_depth then [Directive.step] else []

/-- The classification of `stop_handler` (lines 84-101), applied to the state
whose `current_depth` was already overwritten with `d`: terminate at depth 0
(set `done`, disconnect), insert a child node when the depth grew, ascend the
parent cursor when it shrank, and do nothing on a nonzero stall. -/
def classifyMutation (s1 : TState) (fname : String) (d previous_depth : Nat) : TState :=
  if d = 0 then
    { s1 with done := true, connected := false }
  else if previous_depth < d then
    { s1 with
        node_counter := s1.node_counter + 1
        call_tree := createNode s1.call_tree fname
          ("node_" ++ toString s1.node_counter) s1.current_parent
        current_parent := some ("node_" ++ toString s1.node_counter) }
  else if d < previous_depth then
    match parentOf s1.call_tree s1.current_parent with
    | some pnode => { s1 with current_parent := some pnode.identifier }
    | none => s1
  else s1

/-- The directive choice of `stop_handler` (lines 104-111): nothing at depth
0, `step` strictly below the maximum depth, `finish` otherwise. -/
def tailDirectives (d : Nat) (maxd : Int) : List Directive :=
  if d = 0 then []
  else if (d : Int) < maxd then [Directive.step]
  else [Directive.finish]

/-- `CallTreeCommand.stop_handler`, as a pure function of the command state
and the observed stack. Mirrors the source line by line: the `done` guard,
the no-frame early return, the depth recomputation, the stall branch (which
issues `step` and falls through, there is no `return` in the source), the
three-way classification, and the final directive choice. `print_tree` is
called exactly in the depth-0 branch, on the tree as it then stands. -/
def stop_handler (s : TState) (stack : Stack) : StepResult :=
  if s.done then ⟨s, [], none⟩
  else
    match stack with
    | [] => ⟨s, [], none⟩
    | frame :: rest =>
      let previous_depth := s.current_depth
      let d := computeDepth (frame :: rest) s.initial_frame
      let s2 := classifyMutation { s with current_depth := d } frame.fname d previous_depth
      ⟨s2, stallDirectives d previous_depth ++ tailDirectives d s.max_depth,
        if d = 0 then some s2.call_tree else none⟩

/-- The two early-return failures of `invoke`. -/
inductive InvokeError where
  | depthNotInt
  | noInitialFrame
deriving DecidableEq, Repr

/-- The observable outcome of `invoke`. -/
structure InvokeResult where
  state : TState
  directives : List Directive
  error : Option InvokeError
deriving DecidableEq, Repr

/-- Digit value of a character, `none` for a non-digit. -/
def charDigit (c : Char) : Option Nat :=
  if c.toNat ≥ 48 ∧ c.toNat ≤ 57 then some (c.toNat - 48) else none

/-- Accumulating decimal parse of a digit string. -/
def digitsToNatAux : List Char → Nat → Option Nat
  | [], acc => some acc
  | c :: cs, acc =>
    match charDigit c with
    | none => none
    | some d => digitsToNatAux cs (acc * 10 + d)

/-- A nonempty all-digit string as a natural number. -/
def digitsToNat : List Char → Option Nat
  | [] => none
  | c :: cs => digitsToNatAux (c :: cs) 0

/-- Python `int()` on the string shapes exercised by this command: an
optionally `-`-signed decimal literal; `none` models the `ValueError`. -/
def pyInt? (s : String) : Option Int :=
  match s.data with
  | '-' :: cs => (digitsToNat cs).map (fun n => -(n : Int))
  | cs => (digitsToNat cs).map (fun n => (n : Int))

/-- The argument-parsing prologue of `invoke` (lines 24-30): only a
two-token `--depth N` form is examined; `none` models the `ValueError`
early return, which leaves every field untouched. -/
def parseDepth (s : TState) (args : List String) : Option TState :=
  match args with
  | [flag, value] =>
    if flag = "--depth" then
      match pyInt? value with
      | some n => some { s with max_depth := n }
      | none => none
    else some s
  | _ => some s

/-- `CallTreeCommand.invoke`: parse the depth option, reset the session
fields (the source does not reset `max_depth`), capture the initial frame,
create the root node, connect the handler and issue the first `step`. -/
def invoke (s : TState) (args : List String) (stack : Stack) : InvokeResult :=
  match parseDepth s args with
  | none => ⟨s, [], some InvokeError.depthNotInt⟩
  | some s1 =>
    let s2 : TState :=
      { s1 with
          call_tree := []
          current_depth := 0
          done := false
          node_counter := 0
          current_parent := none }
    match stack.head? with
    | none => ⟨{ s2 with initial_frame := none }, [], some InvokeError.noInitialFrame⟩
    | some f =>
      let s3 : TState := { s2 with initial_frame := some f }
      let s4 : TState :=
        { s3 with
            call_tree := createNode s3.call_tree f.fname "root" none
            current_parent := some "root" }
      let s5 : TState := { s4 with connected := true }
      ⟨s5, [Directive.step], none⟩

/-- Folding `stop_handler` over a sequence of pause observations. -/
def runObs (s : TState) : List Stack → TState
  | [] => s
  | st :: rest => runObs (stop_handler s st).state rest

/-- Tree depth of the node the cursor names: number of parent hops to a
parentless node, with fuel bounding the walk. -/
def nodeDepth (t : CallTree) : Option String → Nat → Nat
  | none, _ => 0
  | some _, 0 => 0
  | some id, fuel + 1 =>
    match findNode t id with
    | none => 0
    | some n =>
      match n.parent with
      | none => 0
      | some p => nodeDepth t (some p) fuel + 1

/-- Number of parentless (root) nodes in the tree. -/
def rootCount (t : CallTree) : Nat :=
  (t.filter (fun n => n.parent == none)).length

/-- Every node's parent identifier, when present, occurs among `seen` or
among the identifiers of the nodes created before it. -/
def parentsSoundAux (seen : List String) : CallTree → Bool
  | [] => true
  | n :: rest =>
    (match n.parent with
     | none => true
     | some p => seen.contains p) && parentsSoundAux (n.identifier :: seen) rest

/-- Concrete frames for the scenarios of the spec. -/
def mainF : Frame := ⟨0, "main"⟩

def fooF : Frame := ⟨1, "foo"⟩

def barF : Frame := ⟨2, "bar"⟩

def bazF : Frame := ⟨3, "baz"⟩

/-- Single-level host model: an observed depth exceeds the depth at the
previous handled pause by at most one (an advance-into enters at most one
call), and after a round whose depth was at or above the maximum (whose last
directive is therefore run-to-return) the next observed depth strictly
decreases. -/
def hostOk (s : TState) (st : Stack) : Prop :=
  computeDepth st s.initial_frame ≤ s.current_depth + 1 ∧
  (s.max_depth ≤ (s.current_depth : Int) →
    computeDepth st s.initial_frame < s.current_depth)

/-- The single-level host model along a whole observation trace. -/
def hostOkTrace : TState → List Stack → Prop
  | _, [] => True
  | s, st :: rest => hostOk s st ∧ hostOkTrace (stop_handler s st).state rest

/-- Round-by-round statement of depth-bounded descent along a trace: every
round keeps the computed depth at most D (so a fortiori whenever a round
mutates the tree the depth is at most D), and every non-terminating round
whose computed depth reaches D issues exactly the run-to-return directive. -/
def depthRoundsOk (D : Int) : TState → List Stack → Prop
  | _, [] => True
  | s, st :: rest =>
    (((stop_handler s st).state.current_depth : Int) ≤ D ∧
      ((stop_handler s st).state.call_tree ≠ s.call_tree →
        ((stop_handler s st).state.current_depth : Int) ≤ D) ∧
      (s.done = false → st ≠ [] → (stop_handler s st).state.done = false →
        D ≤ ((stop_handler s st).state.current_depth : Int) →
        (stop_handler s st).directives = [Directive.finish])) ∧
    depthRoundsOk D (stop_handler s st).state rest

/-- Structural invariant of the call tree and parent cursor: the first node
is the root named after the reference frame, it is the only parentless node,
every parent reference points at an earlier node, and the cursor names a
node of the tree. -/
def TreeInvT (f : Frame) (t : CallTree) (cur : Option String) : Prop :=
  t.head? = some ⟨f.fname, "root", none⟩ ∧
  rootCount t = 1 ∧
  parentsSoundAux [] t = true ∧
  ∃ c, cur = some c ∧ c ∈ ids t

/-- `TreeInvT` on the tree and cursor of a session state. -/
def TreeInv (f : Frame) (s : TState) : Prop :=
  TreeInvT f s.call_tree s.current_parent

instance decHostOk (s : TState) (st : Stack) : Decidable (hostOk s st) := by
  unfold hostOk; infer_instance

instance decHostOkTrace : (s : TState) → (obs : List Stack) → Decidable (hostOkTrace s obs)
  | _, [] => isTrue trivial
  | s, st :: rest =>
    have : Decidable (hostOkTrace (stop_handler s st).state rest) :=
      decHostOkTrace (stop_handler s st).state rest
    inferInstanceAs (Decidable (And _ _))

instance decDepthRoundsOk (D : Int) :
    (s : TState) → (obs : List Stack) → Decidable (depthRoundsOk D s obs)
  | _, [] => isTrue trivial
  | s, st :: rest =>
    have : Decidable (depthRoundsOk D (stop_handler s st).state rest) :=
      decDepthRoundsOk D (stop_handler s st).state rest
    inferInstanceAs (Decidable (And _ _))

/-! Helper lemmas about the depth loop, the handler and the tree. -/

theorem computeDepth_not_mem (stack : Stack) (ref : Option Frame)
    (h : ∀ g ∈ stack, some g ≠ ref) : computeDepth stack ref = stack.length := by
  induction stack with
  | nil => rfl
  | cons f rest ih =>
    simp only [computeDepth, List.length_cons]
    rw [if_neg (h f (List.mem_cons_self f rest)),
      ih (fun g hg => h g (List.mem_cons_of_mem f hg))]

theorem stop_handler_nil (s : TState) : stop_handler s [] = ⟨s, [], none⟩ := by
  by_cases h : s.done <;> simp [stop_handler, h]

theorem stop_handler_halted (s : TState) (st : Stack) (h : s.done = true) :
    stop_handler s st = ⟨s, [], none⟩ := by
  simp [stop_handler, h]

theorem stop_handler_cons (s : TState) (f : Frame) (rest : Stack) (h : s.done = false) :
    stop_handler s (f :: rest) =
      ⟨classifyMutation { s with current_depth := computeDepth (f :: rest) s.initial_frame }
          f.fname (computeDepth (f :: rest) s.initial_frame) s.current_depth,
        stallDirectives (computeDepth (f :: rest) s.initial_frame) s.current_depth
          ++ tailDirectives (computeDepth (f :: rest) s.initial_frame) s.max_depth,
        if computeDepth (f :: rest) s.initial_frame = 0
        then some (classifyMutation
            { s with current_depth := computeDepth (f :: rest) s.initial_frame }
            f.fname (computeDepth (f :: rest) s.initial_frame) s.current_depth).call_tree
        else none⟩ := by
  simp [stop_handler, h]

theorem classifyMutation_max_depth (s1 : TState) (fn : String) (d p : Nat) :
    (classifyMutation s1 fn d p).max_depth = s1.max_depth := by
  unfold classifyMutation
  split_ifs <;> first | rfl | (split <;> rfl)

theorem classifyMutation_current_depth (s1 : TState) (fn : String) (d p : Nat) :
    (classifyMutation s1 fn d p).current_depth = s1.current_depth := by
  unfold classifyMutation
  split_ifs <;> first | rfl | (split <;> rfl)

theorem classifyMutation_done_iff (s1 : TState) (fn : String) (d p : Nat) :
    (classifyMutation s1 fn d p).done = (s1.done || decide (d = 0)) := by
  unfold classifyMutation
  split_ifs with h1 h2 h3
  · simp [h1]
  · simp [h1]
  · split <;> simp [h1]
  · simp [h1]

theorem classifyMutation_connected (s1 : TState) (fn : String) (d p : Nat) (hd : d ≠ 0) :
    (classifyMutation s1 fn d p).connected = s1.connected := by
  unfold classifyMutation
  split_ifs <;> first | (exact absurd (by assumption) hd) | rfl | (split <;> rfl)

theorem classifyMutation_tree (s1 : TState) (fn : String) (d p : Nat) :
    (classifyMutation s1 fn d p).call_tree = s1.call_tree ∨
      (p < d ∧ (classifyMutation s1 fn d p).call_tree
        = s1.call_tree ++ [⟨fn, "node_" ++ toString s1.node_counter, s1.current_parent⟩]) := by
  unfold classifyMutation
  split_ifs with h1 h2 h3
  · exact Or.inl rfl
  · exact Or.inr ⟨h2, by simp [createNode]⟩
  · split <;> exact Or.inl rfl
  · exact Or.inl rfl

theorem findNode_mem (t : CallTree) (i : String) (n : TreeNode) (h : findNode t i = some n) :
    n ∈ t := List.mem_of_find?_eq_some h

theorem mem_ids_of_mem (t : CallTree) (n : TreeNode) (h : n ∈ t) : n.identifier ∈ ids t :=
  List.mem_map_of_mem (fun m => m.identifier) h

theorem ids_append (t : CallTree) (n : TreeNode) :
    ids (t ++ [n]) = ids t ++ [n.identifier] := by
  simp [ids]

theorem contains_iff_mem (l : List String) (x : String) :
    l.contains x = true ↔ x ∈ l := by
  simp [List.contains, List.elem_eq_mem]

theorem parentsSoundAux_mono (t : CallTree) :
    ∀ seen seen' : List String, parentsSoundAux seen t = true →
      (∀ x ∈ seen, x ∈ seen') → parentsSoundAux seen' t = true := by
  induction t with
  | nil => intro seen seen' _ _; rfl
  | cons n rest ih =>
    intro seen seen' h hsub
    simp only [parentsSoundAux, Bool.and_eq_true] at h ⊢
    refine ⟨?_, ih _ _ h.2 ?_⟩
    · match hp : n.parent with
      | none => rfl
      | some p =>
        rw [hp] at h
        exact (contains_iff_mem _ _).mpr (hsub p ((contains_iff_mem _ _).mp h.1))
    · intro x hx
      rcases List.mem_cons.mp hx with h1 | h1
      · exact List.mem_cons.mpr (Or.inl h1)
      · exact List.mem_cons.mpr (Or.inr (hsub x h1))

theorem parentsSoundAux_append_one (t : CallTree) (n : TreeNode) :
    ∀ seen : List String, parentsSoundAux seen t = true →
      (∀ p, n.parent = some p → p ∈ seen ∨ p ∈ ids t) →
      parentsSoundAux seen (t ++ [n]) = true := by
  induction t with
  | nil =>
    intro seen _ hp
    simp only [List.nil_append, parentsSoundAux, Bool.and_eq_true]
    refine ⟨?_, trivial⟩
    match hn : n.parent with
    | none => rfl
    | some p =>
      rcases hp p hn with h1 | h1
      · exact (contains_iff_mem _ _).mpr h1
      · simp [ids] at h1
  | cons m rest ih =>
    intro seen h hp
    simp only [parentsSoundAux, Bool.and_eq_true, List.cons_append] at h ⊢
    refine ⟨h.1, ih _ h.2 ?_⟩
    intro p hpn
    rcases hp p hpn with h1 | h1
    · exact Or.inl (List.mem_cons.mpr (Or.inr h1))
    · simp only [ids, List.map_cons, List.mem_cons] at h1
      rcases h1 with h2 | h2
      · exact Or.inl (List.mem_cons.mpr (Or.inl h2))
      · exact Or.inr h2

theorem rootCount_append_some (t : CallTree) (n : TreeNode) (c : String)
    (h : n.parent = some c) : rootCount (t ++ [n]) = rootCount t := by
  simp [rootCount, List.filter_append, h]

theorem head?_append_of_ne_nil (t : CallTree) (l : CallTree) (h : t ≠ []) :
    (t ++ l).head? = t.head? := by
  cases t with
  | nil => exact absurd rfl h
  | cons a t => rfl

theorem parentOf_mem (t : CallTree) (cur : Option String) (pnode : TreeNode)
    (h : parentOf t cur = some pnode) : pnode ∈ t := by
  simp only [parentOf, Option.bind_eq_some] at h
  obtain ⟨cid, hcid, n, hn, pid, hpid, hfind⟩ := h
  exact findNode_mem _ _ _ hfind

theorem classifyMutation_TreeInv (f : Frame) (s1 : TState) (fn : String) (d p : Nat)
    (h : TreeInvT f s1.call_tree s1.current_parent) :
    TreeInvT f (classifyMutation s1 fn d p).call_tree
      (classifyMutation s1 fn d p).current_parent := by
  obtain ⟨hhead, hroot, hsound, c, hc, hmem⟩ := h
  unfold classifyMutation
  split_ifs with h1 h2 h3
  · exact ⟨hhead, hroot, hsound, c, hc, hmem⟩
  · refine ⟨?_, ?_, ?_, ?_⟩
    · rw [createNode, head?_append_of_ne_nil]
      · exact hhead
      · intro hnil; rw [hnil] at hhead; exact Option.noConfusion hhead
    · exact (rootCount_append_some _ _ c (by rw [hc])).trans hroot
    · refine parentsSoundAux_append_one _ _ [] hsound ?_
      intro q hq
      simp only [hc, Option.some.injEq] at hq
      exact Or.inr (hq ▸ hmem)
    · refine ⟨"node_" ++ toString s1.node_counter, rfl, ?_⟩
      rw [createNode, ids_append]
      exact List.mem_append.mpr (Or.inr (List.mem_singleton.mpr rfl))
  · cases hpar : parentOf s1.call_tree s1.current_parent with
    | some pnode =>
      exact ⟨hhead, hroot, hsound, pnode.identifier, rfl,
        mem_ids_of_mem _ _ (parentOf_mem _ _ _ hpar)⟩
    | none => exact ⟨hhead, hroot, hsound, c, hc, hmem⟩
  · exact ⟨hhead, hroot, hsound, c, hc, hmem⟩

theorem stop_handler_TreeInv (f : Frame) (s : TState) (st : Stack) (h : TreeInv f s) :
    TreeInv f (stop_handler s st).state := by
  by_cases hd : s.done = true
  · rw [stop_handler_halted s st hd]; exact h
  · rw [Bool.not_eq_true] at hd
    cases st with
    | nil => rw [stop_handler_nil]; exact h
    | cons g rest =>
      rw [stop_handler_cons s g rest hd]
      exact classifyMutation_TreeInv f _ _ _ _ h

theorem runObs_TreeInv (f : Frame) (s : TState) (obs : List Stack) (h : TreeInv f s) :
    TreeInv f (runObs s obs) := by
  induction obs generalizing s with
  | nil => exact h
  | cons st rest ih => exact ih _ (stop_handler_TreeInv f s st h)

theorem stop_handler_tree_shape (s : TState) (st : Stack) :
    (stop_handler s st).state.call_tree = s.call_tree ∨
      ∃ nm nid, (stop_handler s st).state.call_tree
        = s.call_tree ++ [⟨nm, nid, s.current_parent⟩] := by
  by_cases hd : s.done = true
  · rw [stop_handler_halted s st hd]; exact Or.inl rfl
  · rw [Bool.not_eq_true] at hd
    cases st with
    | nil => rw [stop_handler_nil]; exact Or.inl rfl
    | cons g rest =>
      rw [stop_handler_cons s g rest hd]
      rcases classifyMutation_tree
          { s with current_depth := computeDepth (g :: rest) s.initial_frame }
          g.fname (computeDepth (g :: rest) s.initial_frame) s.current_depth with
        h1 | ⟨_, h1⟩
      · exact Or.inl h1
      · exact Or.inr ⟨g.fname, _, h1⟩

theorem stop_handler_tree_extends (s : TState) (st : Stack) :
    s.call_tree <+: (stop_handler s st).state.call_tree := by
  rcases stop_handler_tree_shape s st with h | ⟨nm, nid, h⟩
  · rw [h]
  · rw [h]; exact List.prefix_append _ _

theorem runObs_tree_extends (s : TState) (obs : List Stack) :
    s.call_tree <+: (runObs s obs).call_tree := by
  induction obs generalizing s with
  | nil => exact List.prefix_refl _
  | cons st rest ih => exact (stop_handler_tree_extends s st).trans (ih _)

theorem runObs_append (s : TState) (l1 l2 : List Stack) :
    runObs s (l1 ++ l2) = runObs (runObs s l1) l2 := by
  induction l1 generalizing s with
  | nil => rfl
  | cons st rest ih => exact ih _

theorem invoke_success (s : TState) (args : List String) (stack : Stack) (f : Frame)
    (hf : stack.head? = some f) (herr : (invoke s args stack).error = none) :
    ∃ s1 : TState, parseDepth s args = some s1 ∧
      invoke s args stack =
        ⟨{ s1 with
            call_tree := [⟨f.fname, "root", none⟩]
            current_depth := 0
            done := false
            node_counter := 0
            current_parent := some "root"
            initial_frame := some f
            connected := true },
          [Directive.step], none⟩ := by
  cases hp : parseDepth s args with
  | none => simp [invoke, hp] at herr
  | some s1 =>
    refine ⟨s1, rfl, ?_⟩
    simp only [invoke, hp, hf]
    rfl

theorem invoke_TreeInv (s : TState) (args : List String) (stack : Stack) (f : Frame)
    (hf : stack.head? = some f) (herr : (invoke s args stack).error = none) :
    TreeInv f (invoke s args stack).state := by
  obtain ⟨s1, _, heq⟩ := invoke_success s args stack f hf herr
  rw [heq]
  refine ⟨rfl, rfl, rfl, "root", rfl, ?_⟩
  simp [ids]

theorem stop_handler_max_depth (s : TState) (st : Stack) :
    (stop_handler s st).state.max_depth = s.max_depth := by
  by_cases hd : s.done = true
  · rw [stop_handler_halted s st hd]
  · rw [Bool.not_eq_true] at hd
    cases st with
    | nil => rw [stop_handler_nil]
    | cons f rest =>
      rw [stop_handler_cons s f rest hd]
      exact classifyMutation_max_depth _ _ _ _

theorem c7_step (s : TState) (st : Stack)
    (hinv : (s.current_depth : Int) ≤ s.max_depth)
    (hh : hostOk s st) :
    ((stop_handler s st).state.current_depth : Int) ≤ s.max_depth ∧
    (s.done = false → st ≠ [] → (stop_handler s st).state.done = false →
      s.max_depth ≤ ((stop_handler s st).state.current_depth : Int) →
      (stop_handler s st).directives = [Directive.finish]) := by
  by_cases hd : s.done = true
  · rw [stop_handler_halted s st hd]
    exact ⟨hinv, fun hfalse => absurd hd (by simp [hfalse])⟩
  · rw [Bool.not_eq_true] at hd
    cases st with
    | nil =>
      rw [stop_handler_nil]
      exact ⟨hinv, fun _ hne => absurd rfl hne⟩
    | cons f rest =>
      rw [stop_handler_cons s f rest hd]
      obtain ⟨hle, himp⟩ := hh
      have hcd :
          (classifyMutation { s with current_depth := computeDepth (f :: rest) s.initial_frame }
            f.fname (computeDepth (f :: rest) s.initial_frame) s.current_depth).current_depth
          = computeDepth (f :: rest) s.initial_frame :=
        classifyMutation_current_depth _ _ _ _
      have hbound : ((computeDepth (f :: rest) s.initial_frame : Int)) ≤ s.max_depth := by
        rcases lt_or_ge (s.current_depth : Int) s.max_depth with hlt | hge
        · have h1 : ((computeDepth (f :: rest) s.initial_frame : Int))
              ≤ (s.current_depth : Int) + 1 := by exact_mod_cast hle
          omega
        · have h2 : ((computeDepth (f :: rest) s.initial_frame : Int))
              < (s.current_depth : Int) := by exact_mod_cast himp hge
          omega
      constructor
      · rw [hcd]; exact hbound
      · intro _ _ hdone hge
        rw [hcd] at hge
        rw [classifyMutation_done_iff] at hdone
        simp only [show ({ s with
            current_depth := computeDepth (f :: rest) s.initial_frame} : TState).done = s.done
            from rfl, hd, Bool.false_or, decide_eq_false_iff_not] at hdone
        have hne : computeDepth (f :: rest) s.initial_frame ≠ s.current_depth := by
          intro heq
          have hcur : s.max_depth ≤ (s.current_depth : Int) := by rw [← heq]; exact hge
          have := himp hcur
          omega
        rw [stallDirectives, if_neg hne, tailDirectives, if_neg hdone,
          if_neg (not_lt.mpr hge), List.nil_append]

theorem c7_trace (s : TState) (obs : List Stack)
    (hinv : (s.current_depth : Int) ≤ s.max_depth)
    (hh : hostOkTrace s obs) :
    depthRoundsOk s.max_depth s obs := by
  induction obs generalizing s with
  | nil => trivial
  | cons st rest ih =>
    obtain ⟨h1, h2⟩ := hh
    obtain ⟨g1, g2⟩ := c7_step s st hinv h1
    have hmax := stop_handler_max_depth s st
    refine ⟨⟨g1, fun _ => g1, g2⟩, ?_⟩
    have := ih (stop_handler s st).state (by rw [hmax]; exact g1)
    rw [hmax] at this
    exact this h2

/-! Claim theorems. -/

/-- C1: On the stalled observation sequence main/0 -> main/0 the handler does
issue the advance-into retry, but the stall branch does not return: the same
round then classifies depth 0, sets the termination flag, disconnects the
handler and renders the tree, so the session DOES transition to done,
contrary to the claim. -/
theorem c1_stall_falls_through :
    (stop_handler (invoke initState ["--depth", "2"] [mainF]).state [mainF]).state.done
      = true ∧
    (stop_handler (invoke initState ["--depth", "2"] [mainF]).state [mainF]).state.connected
      = false ∧
    (stop_handler (invoke initState ["--depth", "2"] [mainF]).state [mainF]).directives
      = [Directive.step] ∧
    (stop_handler (invoke initState ["--depth", "2"] [mainF]).state [mainF]).rendered
      = some [⟨"main", "root", none⟩] := by decide

/-- C2: A stalled round at nonzero depth issues TWO advance-into directives
in the same pause-handling round (the stall retry and the regular advance at
the end of the handler) although the round does not terminate the session,
contrary to the claim of exactly one directive per non-terminating round. -/
theorem c2_two_directives_one_round :
    (stop_handler (stop_handler (invoke initState ["--depth", "2"] [mainF]).state
        [fooF, mainF]).state [fooF, mainF]).directives
      = [Directive.step, Directive.step] ∧
    (stop_handler (stop_handler (invoke initState ["--depth", "2"] [mainF]).state
        [fooF, mainF]).state [fooF, mainF]).state.done = false := by decide

/-- C3 counterexample: at a pause whose caller chain ([foo, bar]) never
reaches the reference frame (main), the depth computation reports the number
of frames walked (2, not 0) and the session continues: the termination flag
stays unset and the handler stays connected, refuting the claim. -/
theorem c3_exhausted_chain_continues :
    (stop_handler (invoke initState ["--depth", "2"] [mainF]).state
        [fooF, barF]).state.current_depth = 2 ∧
    (stop_handler (invoke initState ["--depth", "2"] [mainF]).state
        [fooF, barF]).state.done = false ∧
    (stop_handler (invoke initState ["--depth", "2"] [mainF]).state
        [fooF, barF]).state.connected = true := by decide

/-- C3 amended: when the caller chain is exhausted without reaching the
Reference Frame, the computed depth is the number of frames walked (the full
chain length, at least 1) and the round does not terminate the session: the
termination flag stays false and the connection state is unchanged. -/
theorem c3_exhausted_chain_counts_frames (s : TState) (f : Frame) (rest : Stack)
    (hmem : ∀ g ∈ f :: rest, some g ≠ s.initial_frame) (hdone : s.done = false) :
    (stop_handler s (f :: rest)).state.current_depth = (f :: rest).length ∧
    (stop_handler s (f :: rest)).state.done = false ∧
    (stop_handler s (f :: rest)).state.connected = s.connected := by
  rw [stop_handler_cons s f rest hdone]
  have hdepth := computeDepth_not_mem (f :: rest) s.initial_frame hmem
  have hne : computeDepth (f :: rest) s.initial_frame ≠ 0 := by
    rw [hdepth]; simp
  refine ⟨?_, ?_, ?_⟩
  · rw [classifyMutation_current_depth]; exact hdepth
  · rw [classifyMutation_done_iff]
    simp only [show ({ s with
        current_depth := computeDepth (f :: rest) s.initial_frame } : TState).done = s.done
        from rfl, hdone, Bool.false_or, decide_eq_false_iff_not]
    exact hne
  · exact classifyMutation_connected _ _ _ _ hne

/-- C3 witness: the amended statement evaluated on the concrete exhausted
chain [foo, bar] in a session whose reference frame is main. -/
theorem c3_exhausted_chain_counts_frames_witness :
    (stop_handler (invoke initState ["--depth", "2"] [mainF]).state
        [fooF, barF]).state.current_depth = ([fooF, barF] : Stack).length ∧
    (stop_handler (invoke initState ["--depth", "2"] [mainF]).state
        [fooF, barF]).state.done = false ∧
    (stop_handler (invoke initState ["--depth", "2"] [mainF]).state
        [fooF, barF]).state.connected
      = (invoke initState ["--depth", "2"] [mainF]).state.connected :=
  c3_exhausted_chain_counts_frames (invoke initState ["--depth", "2"] [mainF]).state
    fooF [barF] (by decide) (by decide)

/-- C4: the depth loop returns exactly the number of caller hops from the
active frame to the Reference Frame whenever the caller chain contains it
(the chain decomposes as the hops, none of which is the reference frame,
followed by the reference frame), and returns 0 when the active frame is the
Reference Frame itself. -/
theorem c4_depth_tracker_exact (pre rest : List Frame) (ref : Frame)
    (hpre : ∀ g ∈ pre, g ≠ ref) :
    computeDepth (pre ++ ref :: rest) (some ref) = pre.length ∧
    computeDepth (ref :: rest) (some ref) = 0 := by
  constructor
  · induction pre with
    | nil => simp [computeDepth]
    | cons g pre ih =>
      simp only [List.cons_append, computeDepth, List.length_cons, List.append_eq]
      rw [if_neg (fun h => hpre g (List.mem_cons_self g pre) (Option.some.inj h)),
        ih (fun x hx => hpre x (List.mem_cons_of_mem g hx))]
  · simp [computeDepth]

/-- C4 witness: one hop from foo to the reference frame main, and 0 at main
itself. -/
theorem c4_depth_tracker_exact_witness :
    computeDepth ([fooF] ++ mainF :: []) (some mainF) = ([fooF] : List Frame).length ∧
    computeDepth (mainF :: []) (some mainF) = 0 :=
  c4_depth_tracker_exact [fooF] [] mainF (by decide)

/-- C5 counterexample: a negative depth argument is accepted: invoke with
depth -1 reports no error, connects the handler, starts stepping and leaves
the session running with maximum depth -1, refuting the claim that every
malformed depth (including a negative integer) fails before tracing. -/
theorem c5_negative_depth_accepted :
    (invoke initState ["--depth", "-1"] [mainF]).error = none ∧
    (invoke initState ["--depth", "-1"] [mainF]).state.connected = true ∧
    (invoke initState ["--depth", "-1"] [mainF]).state.max_depth = -1 ∧
    (invoke initState ["--depth", "-1"] [mainF]).directives = [Directive.step] := by decide

/-- C5 amended: session start validates only that the depth argument parses
as an integer: a two-token depth option whose value is not an integer is
rejected before any tracing begins and the state is left untouched (session
never starts); negative integers are accepted. -/
theorem c5_non_integer_rejected (s : TState) (w : String) (stack : Stack)
    (hw : pyInt? w = none) :
    invoke s ["--depth", w] stack = ⟨s, [], some InvokeError.depthNotInt⟩ := by
  unfold invoke parseDepth
  simp [hw]

/-- C5 witness: the depth value abc is rejected with no state change. -/
theorem c5_non_integer_rejected_witness :
    invoke initState ["--depth", "abc"] [] = ⟨initState, [], some InvokeError.depthNotInt⟩ :=
  c5_non_integer_rejected initState "abc" [] (by decide)

/-- C6 counterexample: a pause with no retrievable frame during an active
session does NOT terminate the session: the termination flag stays false,
the handler stays connected and no tree is rendered, refuting the claim that
the session terminates, unregisters and offers the partial tree. -/
theorem c6_lost_frame_not_terminated :
    (stop_handler (invoke initState ["--depth", "2"] [mainF]).state []).state.done = false ∧
    (stop_handler (invoke initState ["--depth", "2"] [mainF]).state []).state.connected
      = true ∧
    (stop_handler (invoke initState ["--depth", "2"] [mainF]).state []).rendered = none ∧
    (stop_handler (invoke initState ["--depth", "2"] [mainF]).state []).directives = [] := by
  decide

/-- C6 amended: at a pause with no retrievable frame the handler reports the
error and returns with everything unchanged: same state (so the session is
not terminated and the handler stays subscribed), no directive issued, no
tree rendered. -/
theorem c6_lost_frame_noop (s : TState) : stop_handler s [] = ⟨s, [], none⟩ :=
  stop_handler_nil s

/-- C7 counterexample: with maxDepth = 0 the first pause after session start
already creates a node (the tree grows from 1 to 2 nodes) while the current
depth (1) exceeds the maximum depth (0), refuting the claim for D = 0. -/
theorem c7_depth_zero_overshoot :
    (invoke initState ["--depth", "0"] [mainF]).state.max_depth = 0 ∧
    (invoke initState ["--depth", "0"] [mainF]).state.call_tree.length = 1 ∧
    (stop_handler (invoke initState ["--depth", "0"] [mainF]).state
        [fooF, mainF]).state.call_tree.length = 2 ∧
    ¬ ((stop_handler (invoke initState ["--depth", "0"] [mainF]).state
        [fooF, mainF]).state.current_depth : Int)
      ≤ (invoke initState ["--depth", "0"] [mainF]).state.max_depth := by decide

/-- C7 amended: for every session state whose maximum depth D is at least 1
and whose current depth is at most D, along any observation trace obeying the
single-level host model, every round keeps the current depth at most D (in
particular no tree node is ever created while the current depth exceeds D)
and every non-terminating round whose computed depth reaches D issues exactly
the run-to-return directive, never advance-into. -/
theorem c7_depth_bounded (s : TState) (obs : List Stack)
    (_hD : 1 ≤ s.max_depth)
    (hinv : (s.current_depth : Int) ≤ s.max_depth)
    (hh : hostOkTrace s obs) :
    depthRoundsOk s.max_depth s obs :=
  c7_trace s obs hinv hh

/-- C7 witness: a depth-2 session observing a call into foo and the return
to main satisfies the host model and the depth-bounded rounds property. -/
theorem c7_depth_bounded_witness :
    depthRoundsOk (invoke initState ["--depth", "2"] [mainF]).state.max_depth
      (invoke initState ["--depth", "2"] [mainF]).state [[fooF, mainF], [mainF]] :=
  c7_depth_bounded (invoke initState ["--depth", "2"] [mainF]).state
    [[fooF, mainF], [mainF]] (by decide) (by decide) (by decide)

/-- C8: throughout every session begun by a successful invoke and continued
by any pause events: the first tree node is the root, named after the
Reference Frame; it is the only parentless node; every other node refers to
a parent already present when the node was inserted; and the tree is
append-only: after further pause events the earlier tree persists unchanged
as a prefix. -/
theorem c8_tree_invariants (s : TState) (args : List String) (stack : Stack) (f : Frame)
    (hf : stack.head? = some f) (herr : (invoke s args stack).error = none)
    (obs obsMore : List Stack) :
    (runObs (invoke s args stack).state obs).call_tree.head?
        = some ⟨f.fname, "root", none⟩ ∧
    rootCount (runObs (invoke s args stack).state obs).call_tree = 1 ∧
    parentsSoundAux [] (runObs (invoke s args stack).state obs).call_tree = true ∧
    (runObs (invoke s args stack).state obs).call_tree
      <+: (runObs (invoke s args stack).state (obs ++ obsMore)).call_tree := by
  obtain ⟨h1, h2, h3, _⟩ := runObs_TreeInv f _ obs (invoke_TreeInv s args stack f hf herr)
  refine ⟨h1, h2, h3, ?_⟩
  rw [runObs_append]
  exact runObs_tree_extends _ obsMore

/-- C8 witness: the invariants evaluated on a concrete depth-2 session that
observes one call into foo and then the return to main. -/
theorem c8_tree_invariants_witness :
    (runObs (invoke initState ["--depth", "2"] [mainF]).state [[fooF, mainF]]).call_tree.head?
        = some ⟨mainF.fname, "root", none⟩ ∧
    rootCount (runObs (invoke initState ["--depth", "2"] [mainF]).state
        [[fooF, mainF]]).call_tree = 1 ∧
    parentsSoundAux [] (runObs (invoke initState ["--depth", "2"] [mainF]).state
        [[fooF, mainF]]).call_tree = true ∧
    (runObs (invoke initState ["--depth", "2"] [mainF]).state [[fooF, mainF]]).call_tree
      <+: (runObs (invoke initState ["--depth", "2"] [mainF]).state
        ([[fooF, mainF]] ++ [[mainF]])).call_tree :=
  c8_tree_invariants initState ["--depth", "2"] [mainF] mainF (by decide) (by decide)
    [[fooF, mainF]] [[mainF]]

/-- C9 counterexample: the maximum depth is NOT reset at session start: after
a session configured with depth 5, a new invocation without a depth option
starts successfully with maximum depth 5, not the default 2, refuting the
claim. -/
theorem c9_depth_persists_across_sessions :
    initState.max_depth = 2 ∧
    (invoke (invoke initState ["--depth", "5"] [mainF]).state [] [mainF]).error = none ∧
    (invoke (invoke initState ["--depth", "5"] [mainF]).state [] [mainF]).state.max_depth
      = 5 := by decide

/-- C9 amended: an invocation without a depth option resets the tree, the
current depth, the termination flag, the node counter and the parent cursor,
and recaptures the reference frame and root node, but keeps the maximum
depth of the previous invocation instead of restoring the default 2. -/
theorem c9_reset_except_max_depth (s : TState) (stack : Stack) :
    (invoke s [] stack).state.max_depth = s.max_depth ∧
    (invoke s [] stack).state.current_depth = 0 ∧
    (invoke s [] stack).state.done = false ∧
    (invoke s [] stack).state.node_counter = 0 ∧
    (∀ f, stack.head? = some f →
      (invoke s [] stack).state.call_tree = [⟨f.fname, "root", none⟩] ∧
      (invoke s [] stack).state.current_parent = some "root" ∧
      (invoke s [] stack).state.initial_frame = some f) := by
  cases stack with
  | nil => simp [invoke, parseDepth]
  | cons g tail =>
    refine ⟨rfl, rfl, rfl, rfl, ?_⟩
    intro f hf
    simp only [List.head?_cons, Option.some.injEq] at hf
    subst hf
    exact ⟨by simp [invoke, parseDepth, createNode], rfl, rfl⟩

/-- C9 witness: after configuring depth 5, a depth-less invocation keeps
maximum depth 5 while rebuilding a fresh root-only tree. -/
theorem c9_reset_except_max_depth_witness :
    (invoke (invoke initState ["--depth", "5"] [mainF]).state [] [mainF]).state.max_depth
      = 5 ∧
    (invoke (invoke initState ["--depth", "5"] [mainF]).state []
        [mainF]).state.call_tree = [⟨"main", "root", none⟩] :=
  ⟨((c9_reset_except_max_depth (invoke initState ["--depth", "5"] [mainF]).state
      [mainF]).1).trans (by decide),
    ((c9_reset_except_max_depth (invoke initState ["--depth", "5"] [mainF]).state
      [mainF]).2.2.2.2 mainF rfl).1⟩

/-- C10: every pause-handling round appends at most one node to the tree and
any node it appends is attached as a child of the current-parent cursor; in
the concrete session below a two-level descent observed in a single pause
creates one node whose tree depth (1) is smaller than the stack depth (2). -/
theorem c10_single_node_per_round :
    (∀ s st, (stop_handler s st).state.call_tree = s.call_tree ∨
      ∃ nm nid, (stop_handler s st).state.call_tree
        = s.call_tree ++ [⟨nm, nid, s.current_parent⟩]) ∧
    ((stop_handler (invoke initState ["--depth", "9"] [mainF]).state
        [bazF, barF, mainF]).state.current_depth = 2 ∧
      (stop_handler (invoke initState ["--depth", "9"] [mainF]).state
        [bazF, barF, mainF]).state.call_tree.length = 2 ∧
      nodeDepth (stop_handler (invoke initState ["--depth", "9"] [mainF]).state
          [bazF, barF, mainF]).state.call_tree
        (stop_handler (invoke initState ["--depth", "9"] [mainF]).state
          [bazF, barF, mainF]).state.current_parent
        (stop_handler (invoke initState ["--depth", "9"] [mainF]).state
          [bazF, barF, mainF]).state.call_tree.length
        < (stop_handler (invoke initState ["--depth", "9"] [mainF]).state
          [bazF, barF, mainF]).state.current_depth) :=
  ⟨stop_handler_tree_shape, by decide⟩
